import Mathlib

/-!
Verification of the history-store core of `clipboard_history_xclip.py`
(janbajc/clipboard-history-linux).

The embedding follows the source:
  * `Str` — Python strings, modelled as their sequence of code points
    (`List Char`): Python `len` is `List.length`, slicing `s[:100]` is
    `List.take 100`, `+` is `++`, `==` is list equality.
  * `HistoryEntry` — the dict built at `add_to_history` lines 73-77
    (keys `content`, `timestamp`, `preview`, all strings).
  * `ClipboardHistory` — the fields of the Python class that the store
    operations read and write: `max_items`, `history`, `last_clipboard`.
  * `JsonVal` — abstract JSON values, modelling what `json.load` /
    `json.dump` exchange with the backing file.  The textual layer of
    JSON is not modelled: `json.dump` followed by `json.load` is the
    identity on these values, so the file is modelled as holding the
    value itself.
  * `FileState` — `none`: the backing file does not exist
    (`self.history_file.exists()` is false); `some none`: opening or
    parsing the file raises (unreadable file or invalid JSON text);
    `some (some j)`: the file parses to the JSON value `j`.

`datetime.now().isoformat()` is an opaque input string `now` passed to
`add_to_history`.
-/

/-- Python strings as sequences of code points. -/
abbrev Str := List Char

/-- The entry record built at insertion time (lines 73-77 of the source):
`{'content': text, 'timestamp': ..., 'preview': ...}`. -/
structure HistoryEntry where
  content : Str
  timestamp : Str
  preview : Str
deriving Repr, DecidableEq

/-- The mutable state of the `ClipboardHistory` class: `max_items`
(capacity), `history` (the in-memory entry list, most-recent-first) and
`last_clipboard` (`lastSeen`). -/
structure ClipboardHistory where
  max_items : Nat
  history : List HistoryEntry
  last_clipboard : Str
deriving Repr, DecidableEq

/-- Abstract JSON values, as exchanged with the backing file. -/
inductive JsonVal where
  | null : JsonVal
  | bool (b : Bool) : JsonVal
  | num (n : Int) : JsonVal
  | str (s : Str) : JsonVal
  | arr (xs : List JsonVal) : JsonVal
  | obj (kvs : List (Str × JsonVal)) : JsonVal
deriving Repr

/-- State of the backing file `~/.clipboard_history.json`: `none` = file
absent; `some none` = open/parse raises; `some (some j)` = parses to `j`. -/
abbrev FileState : Type := Option (Option JsonVal)

/-- `load_history` (lines 25-32): if the file exists and parses, return
the parsed JSON value unchanged; on a missing file or any exception,
return `[]` (the empty list). Total: never raises to its caller. -/
def load_history (file : FileState) : JsonVal :=
  match file with
  | none => JsonVal.arr []
  | some none => JsonVal.arr []
  | some (some j) => j

/-- `save_history` (lines 34-39), success path: the JSON value written
to the backing file is the serialized entry list. -/
def save_history (history : List HistoryEntry) : JsonVal :=
  JsonVal.arr (history.map (fun e =>
    JsonVal.obj [("content".data, JsonVal.str e.content),
                 ("timestamp".data, JsonVal.str e.timestamp),
                 ("preview".data, JsonVal.str e.preview)]))

/-- The preview expression of line 76:
`text[:100] + ('...' if len(text) > 100 else '')`. -/
def mkPreview (text : Str) : Str :=
  text.take 100 ++ (if text.length > 100 then "...".data else [])

/-- `add_to_history` (lines 60-85), with the clock and the backing file
made explicit: returns the updated in-memory state and file state.
Mirrors the source line by line: reject empty text or text equal to
`last_clipboard`; reject text longer than `1024 * 1024`; remove entries
with equal content; prepend the new entry; truncate to `max_items` when
over; persist; update `last_clipboard`. -/
def add_to_history (s : ClipboardHistory) (file : FileState)
    (text now : Str) : ClipboardHistory × FileState :=
  if text = [] ∨ text = s.last_clipboard then (s, file)
  else if text.length > 1024 * 1024 then (s, file)
  else
    let filtered := s.history.filter (fun item => item.content ≠ text)
    let new_item : HistoryEntry := ⟨text, now, mkPreview text⟩
    let h1 := new_item :: filtered
    let h2 := if h1.length > s.max_items then h1.take s.max_items else h1
    ({ s with history := h2, last_clipboard := text },
     some (some (save_history h2)))

/-- Python dict key access `d[key]` on a parsed JSON object:
`none` models a raised `KeyError`. -/
def lookupKey : List (Str × JsonVal) → Str → Option JsonVal
  | [], _ => none
  | (k, v) :: rest, key => if k = key then some v else lookupKey rest key

/-- A parsed JSON value read back as a `HistoryEntry` record: an object
whose keys `content`, `timestamp`, `preview` are all present strings.
Interpretation glue between raw JSON records and typed entries; the
source itself performs no such validation. -/
def jsonToEntry (j : JsonVal) : Option HistoryEntry :=
  match j with
  | JsonVal.obj kvs =>
    match lookupKey kvs "content".data, lookupKey kvs "timestamp".data,
          lookupKey kvs "preview".data with
    | some (JsonVal.str c), some (JsonVal.str t), some (JsonVal.str p) =>
      some ⟨c, t, p⟩
    | _, _, _ => none
  | _ => none

/-- Each element of a parsed JSON array read back as a `HistoryEntry`
record; `none` as soon as one element is not a valid record. -/
def jsonToEntryList : List JsonVal → Option (List HistoryEntry)
  | [] => some []
  | x :: xs =>
    match jsonToEntry x, jsonToEntryList xs with
    | some e, some rest => some (e :: rest)
    | _, _ => none

/-- A parsed JSON value read back as a sequence of `HistoryEntry`
records (the shape `save_history` writes). -/
def jsonToEntries (j : JsonVal) : Option (List HistoryEntry) :=
  match j with
  | JsonVal.arr xs => jsonToEntryList xs
  | _ => none

/-- `__init__` (lines 19-23) in the case the loaded JSON decodes to a
well-typed entry list: `history` is the loaded list unchanged (no
truncation, no recomputation) and `last_clipboard` is `""`. -/
def init_from_file (max_items : Nat) (file : FileState) :
    Option ClipboardHistory :=
  (jsonToEntries (load_history file)).map
    (fun l => ⟨max_items, l, []⟩)

/-! ### Helper lemmas -/

/-- Reading back the record `save_history` writes for one entry
recovers that entry. -/
lemma jsonToEntry_save (e : HistoryEntry) :
    jsonToEntry (JsonVal.obj [("content".data, JsonVal.str e.content),
      ("timestamp".data, JsonVal.str e.timestamp),
      ("preview".data, JsonVal.str e.preview)]) = some e := rfl

/-- Decoding the array `save_history` writes recovers the entry list. -/
lemma jsonToEntries_save (l : List HistoryEntry) :
    jsonToEntries (save_history l) = some l := by
  induction l with
  | nil => rfl
  | cons e rest ih =>
    simp only [save_history, jsonToEntries, List.map_cons] at *
    simp only [jsonToEntryList, ih]
    rfl

/-- On an accepted insertion the new history is the new entry consed
onto the deduplicated old history, truncated to `max_items`. -/
lemma add_accepted_history (s : ClipboardHistory) (file : FileState)
    (text now : Str) (hne : text ≠ []) (hlast : text ≠ s.last_clipboard)
    (hlen : ¬ 1024 * 1024 < text.length) :
    (add_to_history s file text now).1.history
      = ((⟨text, now, mkPreview text⟩ : HistoryEntry)
          :: s.history.filter (fun item => item.content ≠ text)).take
          s.max_items := by
  simp only [add_to_history, hne, hlast, or_self, if_false, gt_iff_lt, hlen]
  split
  · simp
  · rename_i h
    rw [List.take_of_length_le (Nat.le_of_not_lt h)]

/-- On an accepted insertion with positive capacity, the new entry is
at the head of the history. -/
lemma add_accepted_head (s : ClipboardHistory) (file : FileState)
    (text now : Str) (hne : text ≠ []) (hlast : text ≠ s.last_clipboard)
    (hlen : ¬ 1024 * 1024 < text.length) (hcap : 0 < s.max_items) :
    (add_to_history s file text now).1.history.head?
      = some ⟨text, now, mkPreview text⟩ := by
  rw [add_accepted_history s file text now hne hlast hlen]
  obtain ⟨m, hm⟩ := Nat.exists_eq_add_of_lt hcap
  rw [hm]
  simp [List.take_succ_cons]

/-! ### Claim theorems -/

/-- C3 (corrected), counterexample: a backing file holding the valid
JSON value `42` — which is not a valid sequence of `HistoryEntry`
records — is returned by `load_history` as-is, not replaced by the
empty store. -/
theorem load_nonentry_json_cex :
    load_history (some (some (JsonVal.num 42))) = JsonVal.num 42
    ∧ jsonToEntries (JsonVal.num 42) = none
    ∧ JsonVal.num 42 ≠ JsonVal.arr [] :=
  ⟨rfl, rfl, fun h => nomatch h⟩

/-- C3 (amended): `load_history` never raises (it is total); it returns
the empty list when the backing file is absent or when opening/parsing
it raises, and otherwise returns the parsed JSON value unchanged —
valid JSON that is not a sequence of entry records is not replaced by
an empty store. -/
theorem load_error_recovery :
    load_history none = JsonVal.arr []
    ∧ load_history (some none) = JsonVal.arr []
    ∧ ∀ j : JsonVal, load_history (some (some j)) = j :=
  ⟨rfl, rfl, fun _ => rfl⟩

/-- C5: inserting content longer than `1024 * 1024` characters is a
complete no-op: the store (entries and `last_clipboard`) and the
backing file are returned unchanged. -/
theorem size_ceiling_noop (s : ClipboardHistory) (file : FileState)
    (text now : Str) (h : 1024 * 1024 < text.length) :
    add_to_history s file text now = (s, file) := by
  unfold add_to_history
  split
  · rfl
  · simp [h]

/-- C5 witness: a 2 MiB string is rejected by the concrete store. -/
theorem size_ceiling_noop_witness :
    1024 * 1024 < (List.replicate (2 * 1024 * 1024) 'a').length
    ∧ add_to_history ⟨50, [], []⟩ none
        (List.replicate (2 * 1024 * 1024) 'a') [] = (⟨50, [], []⟩, none) :=
  ⟨by norm_num, size_ceiling_noop _ _ _ _ (by norm_num)⟩

/-- C6: inserting the empty string is a no-op: the store (entries and
`last_clipboard`) and the backing file are returned unchanged. -/
theorem empty_rejection_noop (s : ClipboardHistory) (file : FileState)
    (now : Str) :
    add_to_history s file [] now = (s, file) := by
  simp [add_to_history]

/-- C7: inserting the same content twice in a row leaves `history`
unchanged after the first insertion, for every store state and every
content string (the second call is suppressed by the `last_clipboard`
match when the first was accepted, and by the same rejection otherwise). -/
theorem insert_idempotent (s : ClipboardHistory) (file : FileState)
    (text now1 now2 : Str) :
    (add_to_history (add_to_history s file text now1).1
        (add_to_history s file text now1).2 text now2).1.history
      = (add_to_history s file text now1).1.history := by
  by_cases h1 : text = [] ∨ text = s.last_clipboard
  · simp [add_to_history, h1]
  · by_cases h2 : text.length > 1024 * 1024
    · simp [add_to_history, h1, h2]
    · simp [add_to_history, h1, h2]

/-- C8: `save_history` followed by `load_history` on a fresh store
instance reproduces an equal sequence of entries — content, timestamp
and preview all equal (success path of the file write and read). -/
theorem save_load_roundtrip (m : Nat) (l : List HistoryEntry) :
    init_from_file m (some (some (save_history l))) = some ⟨m, l, []⟩ := by
  simp [init_from_file, load_history, jsonToEntries_save]

/-- C9 (code bug): a backing file written by an older version, whose
entry record lacks the optional `preview` key, is loaded unchanged —
the missing field is not recomputed — and the subsequent dict access
`item['preview']` (list mode, line 379) raises `KeyError` (`none`). -/
theorem load_missing_preview_keyerror :
    load_history (some (some (JsonVal.arr [JsonVal.obj
        [("content".data, JsonVal.str "a".data),
         ("timestamp".data, JsonVal.str "2024-01-01T00:00:00".data)]])))
      = JsonVal.arr [JsonVal.obj
        [("content".data, JsonVal.str "a".data),
         ("timestamp".data, JsonVal.str "2024-01-01T00:00:00".data)]]
    ∧ lookupKey [("content".data, JsonVal.str "a".data),
         ("timestamp".data, JsonVal.str "2024-01-01T00:00:00".data)]
        "preview".data = none
    ∧ jsonToEntry (JsonVal.obj
        [("content".data, JsonVal.str "a".data),
         ("timestamp".data, JsonVal.str "2024-01-01T00:00:00".data)]) = none :=
  ⟨rfl, rfl, rfl⟩

/-- C1 (corrected): (1) every insertion preserves the capacity bound
`history.length ≤ max_items` (and establishes it whenever the insertion
is accepted); (2) with capacity 2, inserting `"x"`, `"y"`, `"z"` into
an empty store yields exactly contents `["z","y"]` — the oldest entry
`"x"` is evicted from the tail. -/
theorem capacity_bound :
    (∀ (s : ClipboardHistory) (file : FileState) (text now : Str),
      s.history.length ≤ s.max_items →
      (add_to_history s file text now).1.history.length ≤ s.max_items)
    ∧ (let r1 := add_to_history ⟨2, [], []⟩ none "x".data "t1".data
       let r2 := add_to_history r1.1 r1.2 "y".data "t2".data
       let r3 := add_to_history r2.1 r2.2 "z".data "t3".data
       r3.1.history.map HistoryEntry.content = ["z".data, "y".data]) := by
  constructor
  · intro s file text now hle
    by_cases hc : text = [] ∨ text = s.last_clipboard
    · simpa [add_to_history, hc] using hle
    · by_cases hlen : 1024 * 1024 < text.length
      · simpa [add_to_history, hc, hlen] using hle
      · push_neg at hc
        rw [add_accepted_history s file text now hc.1 hc.2 hlen,
          List.length_take]
        exact Nat.min_le_left _ _
  · decide

/-- C1 witness: the capacity-preservation part applied to a concrete
store of capacity 2. -/
theorem capacity_bound_witness :
    (⟨2, [], []⟩ : ClipboardHistory).history.length ≤ 2
    ∧ (add_to_history ⟨2, [], []⟩ none "a".data "t".data).1.history.length
        ≤ 2 :=
  ⟨by decide, capacity_bound.1 ⟨2, [], []⟩ none "a".data "t".data (by decide)⟩

/-- C1 counterexample: `load` does not enforce the capacity bound — a
store constructed from a backing file holding 2 entries with
`max_items = 1` has 2 entries, violating the invariant. -/
theorem load_exceeds_capacity_cex :
    init_from_file 1 (some (some (save_history
        [⟨"a".data, "t1".data, "a".data⟩, ⟨"b".data, "t2".data, "b".data⟩])))
      = some ⟨1, [⟨"a".data, "t1".data, "a".data⟩,
          ⟨"b".data, "t2".data, "b".data⟩], []⟩
    ∧ ¬ ((⟨1, [⟨"a".data, "t1".data, "a".data⟩,
          ⟨"b".data, "t2".data, "b".data⟩], []⟩
            : ClipboardHistory).history.length
          ≤ (⟨1, [⟨"a".data, "t1".data, "a".data⟩,
              ⟨"b".data, "t2".data, "b".data⟩], []⟩
            : ClipboardHistory).max_items) :=
  ⟨by decide, by decide⟩

/-- C2: (1) an accepted insertion yields the new entry consed onto the
old history with every equal-content entry removed (relative order of
the rest preserved), truncated to capacity; (2) insertion preserves
distinctness of contents, so no two entries ever share identical
content; (3) concretely, inserting `"b"` into contents `["a","b","c"]`
yields `["b","a","c"]`. -/
theorem dedup_promote :
    (∀ (s : ClipboardHistory) (file : FileState) (text now : Str),
      text ≠ [] → text ≠ s.last_clipboard → ¬ 1024 * 1024 < text.length →
      (add_to_history s file text now).1.history
        = ((⟨text, now, mkPreview text⟩ : HistoryEntry)
            :: s.history.filter (fun item => item.content ≠ text)).take
            s.max_items)
    ∧ (∀ (s : ClipboardHistory) (file : FileState) (text now : Str),
      (s.history.map HistoryEntry.content).Nodup →
      ((add_to_history s file text now).1.history.map
          HistoryEntry.content).Nodup)
    ∧ ((add_to_history ⟨50, [⟨"a".data, "ta".data, "a".data⟩,
          ⟨"b".data, "tb".data, "b".data⟩, ⟨"c".data, "tc".data, "c".data⟩],
          []⟩ none "b".data "td".data).1.history.map HistoryEntry.content
        = ["b".data, "a".data, "c".data]) := by
  refine ⟨fun s file text now hne hlast hlen =>
      add_accepted_history s file text now hne hlast hlen, ?_, ?_⟩
  · intro s file text now hnd
    by_cases hc : text = [] ∨ text = s.last_clipboard
    · simpa [add_to_history, hc] using hnd
    · by_cases hlen : 1024 * 1024 < text.length
      · simpa [add_to_history, hc, hlen] using hnd
      · push_neg at hc
        rw [add_accepted_history s file text now hc.1 hc.2 hlen]
        have h1 : (((⟨text, now, mkPreview text⟩ : HistoryEntry)
            :: s.history.filter (fun item => item.content ≠ text)).map
            HistoryEntry.content).Nodup := by
          simp only [List.map_cons]
          refine List.nodup_cons.mpr ⟨?_, ?_⟩
          · intro hmem
            obtain ⟨e, he, hce⟩ := List.mem_map.mp hmem
            have hf := List.mem_filter.mp he
            simp only [ne_eq, decide_not, Bool.not_eq_eq_eq_not,
              Bool.not_true, decide_eq_false_iff_not] at hf
            exact hf.2 hce
          · exact List.Nodup.sublist ((List.filter_sublist _).map _) hnd
        exact List.Nodup.sublist ((List.take_sublist _ _).map _) h1
  · decide

/-- C2 witness: the dedup-and-promote equation applied to a concrete
store and content. -/
theorem dedup_promote_witness :
    (("q".data : Str) ≠ [] ∧ ("q".data : Str) ≠ ([] : Str)
      ∧ ¬ 1024 * 1024 < ("q".data : Str).length)
    ∧ (add_to_history ⟨50, [], []⟩ none "q".data "t".data).1.history
        = ((⟨"q".data, "t".data, mkPreview "q".data⟩ : HistoryEntry)
            :: ([] : List HistoryEntry).filter
              (fun item => item.content ≠ "q".data)).take 50 :=
  ⟨⟨by decide, by decide, by decide⟩,
   dedup_promote.1 ⟨50, [], []⟩ none "q".data "t".data
     (by decide) (by decide) (by decide)⟩

/-- C4: an accepted insertion (with positive capacity) stores the
entry with preview `mkPreview text` at the head; for content longer
than 100 characters that preview is the first 100 characters plus the
ellipsis marker `"..."`, and for content shorter than 100 characters it
is the content unchanged. -/
theorem preview_derivation (s : ClipboardHistory) (file : FileState)
    (text now : Str) (hne : text ≠ []) (hlast : text ≠ s.last_clipboard)
    (hlen : ¬ 1024 * 1024 < text.length) (hcap : 0 < s.max_items) :
    (add_to_history s file text now).1.history.head?
      = some ⟨text, now, mkPreview text⟩
    ∧ (100 < text.length → mkPreview text = text.take 100 ++ "...".data)
    ∧ (text.length < 100 → mkPreview text = text) := by
  refine ⟨add_accepted_head s file text now hne hlast hlen hcap, ?_, ?_⟩
  · intro h
    simp [mkPreview, h]
  · intro h
    have h2 : ¬ 100 < text.length := by omega
    simp [mkPreview, h2, List.take_of_length_le (by omega : text.length ≤ 100)]

/-- C4 witness: the preview characterization applied to a concrete
150-character content. -/
theorem preview_derivation_witness :
    (List.replicate 150 'a' ≠ ([] : Str)
      ∧ ¬ 1024 * 1024 < (List.replicate 150 'a').length
      ∧ 0 < (50 : Nat))
    ∧ ((add_to_history ⟨50, [], []⟩ none (List.replicate 150 'a')
          "t".data).1.history.head?
        = some ⟨List.replicate 150 'a', "t".data,
            mkPreview (List.replicate 150 'a')⟩
      ∧ (100 < (List.replicate 150 'a').length →
          mkPreview (List.replicate 150 'a')
            = (List.replicate 150 'a').take 100 ++ "...".data)
      ∧ ((List.replicate 150 'a').length < 100 →
          mkPreview (List.replicate 150 'a') = List.replicate 150 'a')) :=
  ⟨⟨by decide, by norm_num, by norm_num⟩,
   preview_derivation ⟨50, [], []⟩ none (List.replicate 150 'a') "t".data
     (by decide) (by decide) (by norm_num) (by norm_num)⟩

/-- C10: at the boundaries left open by the spec: content of exactly
100 characters gets preview equal to the content with no ellipsis
marker, and content of exactly `1024 * 1024` characters is accepted —
the ceiling rejects only strictly greater lengths. -/
theorem boundary_preview_and_ceiling :
    (∀ text : Str, text.length = 100 → mkPreview text = text)
    ∧ (∀ (s : ClipboardHistory) (file : FileState) (text now : Str),
        text ≠ [] → text ≠ s.last_clipboard → text.length = 1024 * 1024 →
        0 < s.max_items →
        (add_to_history s file text now).1.history.head?
          = some ⟨text, now, mkPreview text⟩) := by
  constructor
  · intro text h
    simp [mkPreview, h, List.take_of_length_le (le_of_eq h)]
  · intro s file text now hne hlast hlen hcap
    exact add_accepted_head s file text now hne hlast (by omega) hcap

/-- C10 witness: a 100-character content keeps its preview unchanged,
and a content of exactly 1 MiB enters the store. -/
theorem boundary_preview_and_ceiling_witness :
    ((List.replicate 100 'a').length = 100
      ∧ List.replicate (1024 * 1024) 'a' ≠ ([] : Str)
      ∧ (List.replicate (1024 * 1024) 'a').length = 1024 * 1024)
    ∧ mkPreview (List.replicate 100 'a') = List.replicate 100 'a'
    ∧ (add_to_history ⟨50, [], []⟩ none (List.replicate (1024 * 1024) 'a')
        "t".data).1.history.head?
      = some ⟨List.replicate (1024 * 1024) 'a', "t".data,
          mkPreview (List.replicate (1024 * 1024) 'a')⟩ :=
  ⟨⟨by norm_num,
    by apply List.ne_nil_of_length_pos; norm_num,
    by norm_num⟩,
   boundary_preview_and_ceiling.1 _ (by norm_num),
   boundary_preview_and_ceiling.2 ⟨50, [], []⟩ none _ _
     (by apply List.ne_nil_of_length_pos; norm_num)
     (by apply List.ne_nil_of_length_pos; norm_num)
     (by norm_num) (by norm_num)⟩
